import Mathlib

/-!
# gethexporter: a shallow embedding of `main.go`

The exporter keeps one shared record (`geth`), a map of watched addresses
(`addresses`) and two entry points that touch them: the sampling loop
`Routine` and the HTTP handler `MetricsHttp`, which calls `CalculateTotals`
and `ToEther`.  Each Go function is embedded as a pure function on the
explicit state it reads and writes.  Answers of the Ethereum node and clock
readings are inputs of a cycle; library operations whose code is outside the
repository are either modelled from their documentation (`hexutil.Encode`,
`strings.Split`, `math/big`) or taken as parameters (`strconv.ParseFloat`,
`common.HexToAddress`).
-/

set_option linter.dupNamespace false

namespace GethExporter

/-! ## Machine integers, floats and time -/

/-- Two's-complement wrap-around of an integer into the range of Go's `int64`. -/
def wrapInt64 (x : Int) : Int := (x + 2 ^ 63) % 2 ^ 64 - 2 ^ 63

/-- A dyadic rational `mant * 2 ^ exp`: the shape of every finite binary
floating-point number. -/
structure Dyadic where
  mant : Int
  exp : Int
  deriving DecidableEq, Repr

/-- The rational number a dyadic denotes. -/
def Dyadic.value (d : Dyadic) : ℚ := (d.mant : ℚ) * (2 : ℚ) ^ d.exp

/-- Number of binary digits of `n`, by halving at most `fuel` times. -/
def bitLenAux : Nat → Nat → Nat
  | 0, _ => 0
  | fuel + 1, n => if n = 0 then 0 else bitLenAux fuel (n / 2) + 1

/-- Number of binary digits of `n` (`0` for `0`). -/
def bitLen (n : Nat) : Nat := bitLenAux n n

/-- Rounding of a natural number to at most `prec` significant bits, ties to
even: the kept digits and the number of binary digits dropped. -/
def roundNat (prec n : Nat) : Nat × Nat :=
  let s := bitLen n - prec
  if s = 0 then (n, 0)
  else
    let q := n / 2 ^ s
    let r := n % 2 ^ s
    let half := 2 ^ (s - 1)
    (if half < r ∨ (r = half ∧ q % 2 = 1) then q + 1 else q, s)

/-- Removal of trailing zero bits of a mantissa, at most `fuel` of them. -/
def stripAux : Nat → Nat → Int → Nat × Int
  | 0, m, e => (m, e)
  | fuel + 1, m, e => if m ≠ 0 ∧ m % 2 = 0 then stripAux fuel (m / 2) (e + 1) else (m, e)

/-- The dyadic with an odd mantissa (or `0 * 2 ^ 0`) of the same value. -/
def Dyadic.canon (d : Dyadic) : Dyadic :=
  if d.mant = 0 then ⟨0, 0⟩
  else
    let p := stripAux d.mant.natAbs d.mant.natAbs d.exp
    ⟨Int.sign d.mant * (p.1 : Int), p.2⟩

/-- Rounding of a dyadic to `prec` significant bits, ties to even, in
canonical form: the rounding of `float64` arithmetic (`prec = 53`, exponent
range unbounded) and the default mode `ToNearestEven` of `big.Float`. -/
def Dyadic.round (prec : Nat) (d : Dyadic) : Dyadic :=
  let p := roundNat prec d.mant.natAbs
  Dyadic.canon ⟨Int.sign d.mant * (p.1 : Int), d.exp + (p.2 : Int)⟩

/-- Finite `float64` values.  Infinities, NaN, the sign of zero and the
bounded exponent range are not represented. -/
abbrev Float64 := Dyadic

/-- The rounded product of two `float64` values. -/
def Float64.mul (x y : Float64) : Float64 :=
  Dyadic.round 53 ⟨x.mant * y.mant, x.exp + y.exp⟩

/-- The conversion `float64(n)` of an integer. -/
def Float64.ofInt (n : Int) : Float64 := Dyadic.round 53 ⟨n, 0⟩

/-- The quotient `(n / d) * 2 ^ e` of naturals (`d` positive), negated when
`neg`, rounded to `prec` bits: the integer quotient is taken with at least
`prec + 2` digits and a last digit that records an inexact division. -/
def Dyadic.roundQuot (prec : Nat) (neg : Bool) (n d : Nat) (e : Int) : Dyadic :=
  let k := prec + 2 + bitLen d - bitLen n
  let q := n * 2 ^ k / d
  let sticky := if n * 2 ^ k % d = 0 then 0 else 1
  Dyadic.round prec ⟨(if neg then -1 else 1) * ((2 * q + sticky : Nat) : Int), e - (k : Int) - 1⟩

/-- The rounded sum of two `float64` values. -/
def Float64.add (x y : Float64) : Float64 :=
  let e := min x.exp y.exp
  Dyadic.round 53 ⟨x.mant * 2 ^ (x.exp - e).toNat + y.mant * 2 ^ (y.exp - e).toNat, e⟩

/-- The rounded quotient of two `float64` values, for a divisor other than
zero (a zero divisor, whose quotient is not finite, gives `0` here). -/
def Float64.div (x y : Float64) : Float64 :=
  if y.mant = 0 then ⟨0, 0⟩
  else Dyadic.roundQuot 53 (decide (Int.sign x.mant * Int.sign y.mant < 0))
    x.mant.natAbs y.mant.natAbs (x.exp - y.exp)

/-- An instant of `time.Time`, in nanoseconds counted from the zero `Time`. -/
abbrev Time := Int

/-- The duration `t.Sub(u)` in nanoseconds, saturating at the bounds of
`int64` as `time.Time.Sub` does. -/
def Time.Sub (t u : Time) : Int := max (-(2 ^ 63)) (min (2 ^ 63 - 1) (t - u))

/-- The method `Duration.Seconds` on a duration of `d` nanoseconds:
`float64(sec) + float64(nsec)/1e9` for the truncated quotient and remainder
of `d` by a second. -/
def Seconds (d : Int) : Float64 :=
  let sec := Int.tdiv d 1000000000
  let nsec := Int.tmod d 1000000000
  Float64.add (Float64.ofInt sec) (Float64.div (Float64.ofInt nsec) (Float64.ofInt 1000000000))

/-! ## Data model -/

/-- The parts of `types.Transaction` that the exporter reads. -/
structure Transaction where
  /-- Destination `To()`: `none` is the nil pointer of a contract creation. -/
  To : Option String
  /-- Payload `Data()`. -/
  Data : List (Fin 256)
  /-- Carried amount `Value()`, in wei. -/
  Value : Int
  deriving DecidableEq, Repr

/-- The parts of `types.Block` that the exporter reads.  A Go slice holds
fewer than `2 ^ 63` elements, which `lenTransactions` records. -/
structure Block where
  /-- Header number `Number()`. -/
  Number : Nat
  /-- Rendering of `Hash()`. -/
  Hash : String
  /-- Transaction list `Transactions()`. -/
  Transactions : List Transaction
  GasUsed : Nat
  GasLimit : Nat
  Nonce : Nat
  Difficulty : Int
  /-- Number of uncle headers, `len(Uncles())`. -/
  Uncles : Nat
  /-- Rendering `Size().String()` of the block size, such as `"1.23 kB"`. -/
  SizeString : String
  lenTransactions : Transactions.length < 2 ^ 63
  deriving DecidableEq

/-- Height `NumberU64()`: the low 64 bits of the header number. -/
def Block.NumberU64 (b : Block) : Nat := b.Number % 2 ^ 64

/-- The fields of `ethereum.SyncProgress` that the exporter reads. -/
structure SyncProgress where
  KnownStates : Nat
  HighestBlock : Nat
  PulledStates : Nat
  deriving DecidableEq, Repr

/-- The shared record `GethInfo`. -/
structure GethInfo where
  GethServer : String
  ContractsCreated : Int
  TokenTransfers : Int
  ContractCalls : Int
  EthTransfers : Int
  BlockSize : Float64
  LoadTime : Float64
  /-- Never nil: allocated by `init` and again by each `CalculateTotals`. -/
  TotalEth : Int
  CurrentBlock : Option Block
  Sync : Option SyncProgress
  LastBlockUpdate : Time
  SugGasPrice : Option Int
  PendingTx : Nat
  NetworkId : Option Int
  deriving DecidableEq

/-- An entry of the watch list, `Address`. -/
structure Address where
  Balance : Option Int
  Address : String
  Nonce : Nat
  deriving DecidableEq, Repr

/-- Library operations outside the repository that are taken as given. -/
structure Library where
  /-- The value returned by `strconv.ParseFloat(s, 10)` and whether it
  reported an error. -/
  ParseFloat : String → Float64 × Bool
  /-- The rendering `common.HexToAddress(a).String()`. -/
  HexToAddressString : String → String

/-- A state reached by a function that may stop in a run-time panic: the
shared state at that point and whether it panicked. -/
structure Run (σ : Type) where
  state : σ
  panicked : Bool

/-! ## `strings.Split` and `hexutil.Encode` -/

/-- Pieces of a character list between occurrences of `sep`; `cur` holds the
current piece, reversed. -/
def splitAux (sep : Char) : List Char → List Char → List (List Char)
  | [], cur => [cur.reverse]
  | c :: cs, cur =>
    if c = sep then cur.reverse :: splitAux sep cs [] else splitAux sep cs (c :: cur)

/-- Go's `strings.Split(s, sep)` for a separator of one ASCII character. -/
def Split (s : String) (sep : Char) : List String :=
  (splitAux sep s.data []).map String.mk

/-- The table of `encoding/hex`. -/
def hextable : List Char := "0123456789abcdef".data

/-- The digit `hextable[n]`. -/
def hexDigit (n : Nat) : Char := hextable.getD n '0'

/-- Go's `hex.Encode`: two digits per byte, high nibble first. -/
def hexEncode : List (Fin 256) → List Char
  | [] => []
  | v :: vs => hexDigit (v.val / 16) :: hexDigit (v.val % 16) :: hexEncode vs

/-- The library function `hexutil.Encode`: the prefix `0x` and the hex digits. -/
def Encode (b : List (Fin 256)) : String := String.mk ('0' :: 'x' :: hexEncode b)

/-! ## `CalculateTotals` -/

/-- The function `stringToFloat`: the parsed amount, the error dropped. -/
def stringToFloat (lib : Library) (s : String) : Float64 := (lib.ParseFloat s).1

/-- Body of the loop over the transactions of `CalculateTotals`. -/
def CalculateTotals.body (g : GethInfo) (b : Transaction) : GethInfo :=
  let g := if b.To = none then
      { g with ContractsCreated := wrapInt64 (g.ContractsCreated + 1) } else g
  let g := if 4 ≤ b.Data.length then
      let method := Encode (b.Data.take 4)
      if method = "0xa9059cbb" then
        { g with TokenTransfers := wrapInt64 (g.TokenTransfers + 1) } else g
    else g
  let g := if Int.sign b.Value = 1 then
      { g with EthTransfers := wrapInt64 (g.EthTransfers + 1) } else g
  { g with TotalEth := g.TotalEth + b.Value }

/-- The function `CalculateTotals(block)`.  The size is read from
`geth.CurrentBlock`, and the call panics on a nil `geth.CurrentBlock` after
the loop has stored the four transaction aggregates. -/
def CalculateTotals (lib : Library) (g : GethInfo) (block : Block) : Run GethInfo :=
  let g := { g with TotalEth := 0, ContractsCreated := 0, TokenTransfers := 0,
                    EthTransfers := 0 }
  let g := block.Transactions.foldl CalculateTotals.body g
  match g.CurrentBlock with
  | none => { state := g, panicked := true }
  | some cur =>
    let size := Split cur.SizeString ' '
    { state := { g with BlockSize :=
                   Float64.mul (stringToFloat lib (size.headD "")) (Float64.ofInt 1000) },
      panicked := false }

/-! ## `ToEther` -/

/-- A finite `big.Float`: its precision in bits and its value. -/
structure BigFloat where
  prec : Nat
  val : Dyadic
  deriving DecidableEq, Repr

/-- The constructor `big.NewFloat(x)`: precision 53 and the value of `x`. -/
def NewFloat (x : Float64) : BigFloat := ⟨53, x.canon⟩

/-- The method `z.SetInt(x)`: `x` rounded to the precision of `z`; a `z` of
precision 0 first takes the larger of the bit length of `x` and 64. -/
def BigFloat.SetInt (z : BigFloat) (x : Int) : BigFloat :=
  let prec := if z.prec = 0 then max (bitLen x.natAbs) 64 else z.prec
  ⟨prec, Dyadic.round prec ⟨x, 0⟩⟩

/-- The method `z.Mul(x, y)`: the product rounded to the precision of `z`; a
`z` of precision 0 first takes the larger precision of the operands. -/
def BigFloat.Mul (z x y : BigFloat) : BigFloat :=
  let prec := if z.prec = 0 then max x.prec y.prec else z.prec
  ⟨prec, Dyadic.round prec ⟨x.val.mant * y.val.mant, x.val.exp + y.val.exp⟩⟩

/-- The `float64` constant that the literal `0.000000000000000001` denotes:
the `float64` nearest to `10⁻¹⁸` (see `attoLiteral_nearest`). -/
def attoLiteral : Float64 := ⟨1298074214633707, -110⟩

/-- The function `ToEther(o)`; `none` is the panic of `SetInt` on a nil `o`. -/
def ToEther (o : Option Int) : Option BigFloat :=
  let pul := NewFloat ⟨0, 0⟩
  let int := NewFloat ⟨0, 0⟩
  match o with
  | none => none
  | some x =>
    let int := int.SetInt x
    some (pul.Mul (NewFloat attoLiteral) int)

/-! ## `Routine` -/

/-- The map `addresses`, as the list of its entries; `MetricsHttp` ranges over
it in the order of the list. -/
abbrev AddrMap := List (String × Address)

/-- The assignment `addresses[k] = v`. -/
def AddrMap.set : AddrMap → String → Address → AddrMap
  | [], k, v => [(k, v)]
  | (k', v') :: m, k, v =>
    if k' = k then (k, v) :: m else (k', v') :: AddrMap.set m k v

/-- The entry stored under `k`, if any. -/
def AddrMap.get (m : AddrMap) (k : String) : Option Address := List.lookup k m

/-- What `eth.BlockByNumber` returned: a block and a nil error, or an error
together with the block pointer that came with it (nil for `ethclient`). -/
inductive BlockResult where
  | ok (b : Block)
  | err (b : Option Block)

/-- What a node query returned: the value, and whether the error was non-nil. -/
structure Reply (α : Type) where
  val : α
  failed : Bool

/-- The inputs of one iteration of the loop of `Routine`: the clock readings
and what each node query returns if the iteration makes it. -/
structure CycleEnv where
  /-- The reading `t1 := time.Now()`. -/
  t1 : Time
  BlockByNumber : BlockResult
  SuggestGasPrice : Reply (Option Int)
  PendingTransactionCount : Reply Nat
  NetworkID : Reply (Option Int)
  SyncProgress : Reply (Option SyncProgress)
  /-- The reading of `time.Now()` stored in `LastBlockUpdate`. -/
  nowUpdate : Time
  /-- The reading of `time.Now()` from which `LoadTime` is taken. -/
  nowLoad : Time
  /-- The answer to `BalanceAt` for the `i`-th piece of the watch list. -/
  BalanceAt : Nat → Reply (Option Int)
  /-- The answer to `NonceAt` for the `i`-th piece of the watch list. -/
  NonceAt : Nat → Reply Nat

/-- The state `Routine` works on: the shared record, the shared map and the
local variable `lastBlock`. -/
structure RoutineState where
  geth : GethInfo
  addresses : AddrMap
  lastBlock : Option Block

/-- Body of the loop over the watch list, for the piece `a` at position `i`. -/
def Routine.watch (lib : Library) (env : CycleEnv) (addresses : AddrMap)
    (ia : Nat × String) : AddrMap :=
  let a := ia.2
  let balance := (env.BalanceAt ia.1).val
  let nonce := (env.NonceAt ia.1).val
  let address : Address :=
    { Address := lib.HexToAddressString a, Balance := balance, Nonce := nonce }
  AddrMap.set addresses a address

/-- One iteration of the loop of `Routine` (the sleep has no effect on the
state). -/
def Routine.cycle (lib : Library) (watchingAddresses : String) (env : CycleEnv)
    (st : RoutineState) : RoutineState :=
  match env.BlockByNumber with
  | .err blk => { st with geth := { st.geth with CurrentBlock := blk } }
  | .ok blk =>
    let g := { st.geth with CurrentBlock := some blk }
    let g := { g with SugGasPrice := env.SuggestGasPrice.val }
    let g := { g with PendingTx := env.PendingTransactionCount.val }
    let g := { g with NetworkId := env.NetworkID.val }
    let g := { g with Sync := env.SyncProgress.val }
    let advanced : Bool :=
      match st.lastBlock with
      | none => true
      | some last => decide (last.NumberU64 < blk.NumberU64)
    let g := if advanced then
        { g with LastBlockUpdate := env.nowUpdate,
                 LoadTime := Seconds (Time.Sub env.nowLoad env.t1) }
      else g
    let addresses := if watchingAddresses ≠ "" then
        ((Split watchingAddresses ',').enum).foldl (Routine.watch lib env) st.addresses
      else st.addresses
    { geth := g, addresses := addresses, lastBlock := some blk }

/-- The function `Routine`, whose loop never ends, run for the iterations
whose inputs are `envs`, from the state `st` (`Routine.start` at first). -/
def Routine (lib : Library) (watchingAddresses : String) (envs : List CycleEnv)
    (st : RoutineState) : RoutineState :=
  envs.foldl (fun st env => Routine.cycle lib watchingAddresses env st) st

/-- The record `init` allocates: zero values and `TotalEth = 0`. -/
def initGeth : GethInfo :=
  { GethServer := "", ContractsCreated := 0, TokenTransfers := 0, ContractCalls := 0,
    EthTransfers := 0, BlockSize := ⟨0, 0⟩, LoadTime := ⟨0, 0⟩, TotalEth := 0,
    CurrentBlock := none, Sync := none, LastBlockUpdate := 0, SugGasPrice := none,
    PendingTx := 0, NetworkId := none }

/-- The state in which `main` starts `Routine`: the server name and the first
block stored, no watch entry yet, `lastBlock` nil. -/
def Routine.start (server : String) (first : Block) : RoutineState :=
  { geth := { initGeth with GethServer := server, CurrentBlock := some first },
    addresses := [], lastBlock := none }

/-! ## `MetricsHttp` -/

/-- An operand of `fmt.Sprintf`. -/
inductive Arg where
  | str (s : String)
  | uint (n : Nat)
  | int (n : Int)
  | bigInt (v : Option Int)
  | float (x : Float64)
  | bigFloat (x : BigFloat)
  /-- The string `x.String()` of a `big.Float`. -/
  | bigFloatString (x : BigFloat)
  deriving DecidableEq, Repr

/-- The string `fmt.Sprintf(format, args...)`, kept as its format and
operands. -/
structure Sprintf where
  format : String
  args : List Arg
  deriving DecidableEq, Repr

/-- What a call of `MetricsHttp` leaves behind: the shared record, the status
given to `WriteHeader` if it was called, the payload of each `Write` (a list
of strings joined by newlines), and whether the handler panicked. -/
structure HttpResult where
  geth : GethInfo
  header : Option Nat
  writes : List (List Sprintf)
  panicked : Bool

/-- The status the client receives: the one given to `WriteHeader`, else 200;
none when the handler panicked before writing. -/
def HttpResult.status (r : HttpResult) : Option Nat :=
  if r.panicked then none else some (r.header.getD 200)

/-- The two lines `MetricsHttp` appends for a watched address; `none` is the
panic of `ToEther` on a nil balance.  (The source has a doubled comma after
`taskPrefix` in these two calls; they are read with a single one.) -/
def MetricsHttp.addressLines (taskPrefix : String) (v : Address) : Option (List Sprintf) :=
  match ToEther v.Balance with
  | none => none
  | some bal =>
    some [⟨"%v_eth_address_balance\x7baddress=\"%v\"\x7d %v",
            [.str taskPrefix, .str v.Address, .bigFloatString bal]⟩,
          ⟨"%v_eth_address_nonce\x7baddress=\"%v\"\x7d %v",
            [.str taskPrefix, .str v.Address, .uint v.Nonce]⟩]

/-- The loop of `MetricsHttp` over `addresses`. -/
def MetricsHttp.addressesLines (taskPrefix : String) : AddrMap → Option (List Sprintf)
  | [] => some []
  | (_, v) :: m =>
    match MetricsHttp.addressLines taskPrefix v with
    | none => none
    | some ls =>
      match MetricsHttp.addressesLines taskPrefix m with
      | none => none
      | some rest => some (ls ++ rest)

/-- The lines `MetricsHttp` appends before the loop over `addresses`, from the
record `g` as `CalculateTotals` left it. -/
def MetricsHttp.lines (taskPrefix : String) (now : Time) (g : GethInfo)
    (block : Block) (value : BigFloat) : List Sprintf :=
  [ ⟨"%v_eth_block %v", [.str taskPrefix, .uint block.NumberU64]⟩,
    ⟨"%v_eth_seconds_last_block %0.2f",
      [.str taskPrefix, .float (Seconds (Time.Sub now g.LastBlockUpdate))]⟩,
    ⟨"%v_eth_block_transactions %v", [.str taskPrefix, .int block.Transactions.length]⟩,
    ⟨"%v_eth_block_value %v", [.str taskPrefix, .bigFloat value]⟩,
    ⟨"%v_eth_block_gas_used %v", [.str taskPrefix, .uint block.GasUsed]⟩,
    ⟨"%v_eth_block_gas_limit %v", [.str taskPrefix, .uint block.GasLimit]⟩,
    ⟨"%v_eth_block_nonce %v", [.str taskPrefix, .uint block.Nonce]⟩,
    ⟨"%v_eth_block_difficulty %v", [.str taskPrefix, .bigInt (some block.Difficulty)]⟩,
    ⟨"%v_eth_block_uncles %v", [.str taskPrefix, .int block.Uncles]⟩,
    ⟨"%v_eth_block_size_bytes %v", [.str taskPrefix, .float g.BlockSize]⟩,
    ⟨"%v_eth_gas_price %v", [.str taskPrefix, .bigInt g.SugGasPrice]⟩,
    ⟨"%v_eth_pending_transactions %v", [.str taskPrefix, .uint g.PendingTx]⟩,
    ⟨"%v_eth_network_id %v", [.str taskPrefix, .bigInt g.NetworkId]⟩,
    ⟨"%v_eth_contracts_created %v", [.str taskPrefix, .int g.ContractsCreated]⟩,
    ⟨"%v_eth_token_transfers %v", [.str taskPrefix, .int g.TokenTransfers]⟩,
    ⟨"%v_eth_eth_transfers %v", [.str taskPrefix, .int g.EthTransfers]⟩,
    ⟨"%v_eth_load_time %0.4f", [.str taskPrefix, .float g.LoadTime]⟩ ] ++
  (match g.Sync with
   | none => []
   | some sync =>
     [ ⟨"%v_eth_known_states %v", [.str taskPrefix, .int (wrapInt64 sync.KnownStates)]⟩,
       ⟨"%v_eth_highest_block %v", [.str taskPrefix, .int (wrapInt64 sync.HighestBlock)]⟩,
       ⟨"%v_eth_pulled_states %v", [.str taskPrefix, .int (wrapInt64 sync.PulledStates)]⟩ ])

/-- The handler `MetricsHttp`, called at the instant `now`. -/
def MetricsHttp (lib : Library) (taskPrefix : String) (now : Time) (g : GethInfo)
    (addresses : AddrMap) : HttpResult :=
  match g.CurrentBlock with
  | none =>
    { geth := g, header := some 500,
      writes := [[⟨"issue receiving block from URL: %v", [.str g.GethServer]⟩]],
      panicked := false }
  | some block =>
    let r := CalculateTotals lib g block
    if r.panicked then { geth := r.state, header := none, writes := [], panicked := true }
    else
      let g := r.state
      match ToEther (some g.TotalEth) with
      | none => { geth := g, header := none, writes := [], panicked := true }
      | some value =>
        match MetricsHttp.addressesLines taskPrefix addresses with
        | none => { geth := g, header := none, writes := [], panicked := true }
        | some rest =>
          { geth := g, header := none,
            writes := [MetricsHttp.lines taskPrefix now g block value ++ rest],
            panicked := false }

/-! ## Example inputs -/

/-- Value and number of fraction digits of a plain decimal numeral
`digits[.digits]`, read from the left; `none` for any other string. -/
def readDecimal : List Char → Nat → Option Nat → Option (Nat × Nat)
  | [], n, none => some (n, 0)
  | [], n, some k => some (n, k)
  | c :: cs, n, k =>
    if c = '.' then
      match k with
      | none => readDecimal cs n (some 0)
      | some _ => none
    else if c.isDigit then
      readDecimal cs (10 * n + (c.toNat - '0'.toNat)) (k.map (· + 1))
    else none

/-- A reader of plain decimal numerals: the nearest `float64` to
`digits[.digits]`, as `strconv.ParseFloat` gives for such a token, and `0`
with an error for any other string. -/
def parseDecimal (s : String) : Float64 × Bool :=
  match s.data with
  | [] => (⟨0, 0⟩, true)
  | cs =>
    match readDecimal cs 0 none with
    | some (n, k) => (Dyadic.roundQuot 53 false n (10 ^ k) 0, false)
    | none => (⟨0, 0⟩, true)

/-- A library for the examples: decimal numerals are parsed, and an address
is rendered as the string it was given as. -/
def exampleLib : Library :=
  { ParseFloat := parseDecimal, HexToAddressString := fun a => a }

/-- A block without transactions at height `n`, of size `1.00 kB`. -/
def emptyBlock (n : Nat) : Block :=
  { Number := n, Hash := "", Transactions := [], GasUsed := 0, GasLimit := 0, Nonce := 0,
    Difficulty := 0, Uncles := 0, SizeString := "1.00 kB", lenTransactions := by decide }

/-- A block at height `n`, of size `2.00 kB`, with one transaction: a contract
creation that carries 7 wei and the payload `a9 05 9c bb`. -/
def oneTxBlock (n : Nat) : Block :=
  { Number := n, Hash := "", GasUsed := 0, GasLimit := 0, Nonce := 0,
    Transactions := [{ To := none, Data := [0xa9, 0x05, 0x9c, 0xbb], Value := 7 }],
    Difficulty := 0, Uncles := 0, SizeString := "2.00 kB", lenTransactions := by decide }

/-- A cycle at clock reading `t` in which the block query returns `r`, every
other query succeeds, and the read after the fetch is 1 ns later. -/
def exampleEnv (t : Time) (r : BlockResult) : CycleEnv :=
  { t1 := t, BlockByNumber := r,
    SuggestGasPrice := ⟨some 20, false⟩, PendingTransactionCount := ⟨3, false⟩,
    NetworkID := ⟨some 1, false⟩, SyncProgress := ⟨none, false⟩,
    nowUpdate := t + 1, nowLoad := t + 1,
    BalanceAt := fun _ => ⟨some 50, false⟩, NonceAt := fun _ => ⟨9, false⟩ }

/-- Successful cycles that fetch empty blocks of the heights `hs`, one every
1000 ns. -/
def heightEnvs (hs : List Nat) : List CycleEnv :=
  hs.enum.map (fun p => exampleEnv (1000 * ((p.1 : Int) + 1)) (.ok (emptyBlock p.2)))

/-- A watched address whose rendering by `common.HexToAddress(a).String()` is
the string itself. -/
def watched : String := "0x0000000000000000000000000000000000000001"

/-- A state of `Routine` after earlier cycles: block 5 stored and observed, gas
price 20, and the entry of `watched` with balance 5 and nonce 3. -/
def laterState : RoutineState :=
  { geth := { initGeth with GethServer := "node", CurrentBlock := some (emptyBlock 5),
                            SugGasPrice := some 20, PendingTx := 3, NetworkId := some 1,
                            LastBlockUpdate := 500 },
    addresses := [(watched, { Balance := some 5, Address := watched, Nonce := 3 })],
    lastBlock := some (emptyBlock 5) }

/-- A cycle that fetches block 6 in which the gas-price and balance queries
fail (returning nil and 0) while the nonce query returns 4. -/
def partialEnv : CycleEnv :=
  { exampleEnv 1000 (.ok (emptyBlock 6)) with
    SuggestGasPrice := ⟨none, true⟩,
    BalanceAt := fun _ => ⟨some 0, true⟩,
    NonceAt := fun _ => ⟨4, false⟩ }

/-- For each iteration of `Routine`, whether it changed
`geth.LastBlockUpdate`. -/
def Routine.updates (lib : Library) (watchingAddresses : String) :
    List CycleEnv → RoutineState → List Bool
  | [], _ => []
  | env :: envs, st =>
    let st' := Routine.cycle lib watchingAddresses env st
    decide (st'.geth.LastBlockUpdate ≠ st.geth.LastBlockUpdate) ::
      Routine.updates lib watchingAddresses envs st'

/-! ## Lemmas: rounding to nearest, ties to even -/

theorem bitLenAux_spec (fuel n : Nat) (h : n ≤ fuel) :
    n < 2 ^ bitLenAux fuel n ∧ (n ≠ 0 → 2 ^ (bitLenAux fuel n - 1) ≤ n) := by
  induction fuel generalizing n with
  | zero =>
    have : n = 0 := by omega
    subst this
    simp [bitLenAux]
  | succ fuel ih =>
    by_cases hn : n = 0
    · subst hn
      simp [bitLenAux]
    · have hle : n / 2 ≤ fuel := by omega
      obtain ⟨h1, h2⟩ := ih (n / 2) hle
      simp only [bitLenAux, if_neg hn, Nat.add_sub_cancel]
      refine ⟨?_, fun _ => ?_⟩
      · rw [pow_succ]
        omega
      · by_cases hz : n / 2 = 0
        · have hb : bitLenAux fuel (n / 2) = 0 := by
            rw [hz]
            cases fuel <;> simp [bitLenAux]
          rw [hb]
          simp
          omega
        · have h3 := h2 hz
          have hpos : 0 < bitLenAux fuel (n / 2) := by
            by_contra hc
            have : bitLenAux fuel (n / 2) = 0 := by omega
            rw [this] at h1
            simp at h1
            exact hz h1
          have e : bitLenAux fuel (n / 2) = (bitLenAux fuel (n / 2) - 1) + 1 := by omega
          rw [e, pow_succ]
          omega

theorem bitLen_spec (n : Nat) :
    n < 2 ^ bitLen n ∧ (n ≠ 0 → 2 ^ (bitLen n - 1) ≤ n) :=
  bitLenAux_spec n n (le_refl n)

/-- Rounding of a natural number: the kept digits fit `prec` bits (or are
`2 ^ prec`), lie within half a unit of the input, are even on a tie, and no
more digits are dropped than the precision demands. -/
theorem roundNat_spec (prec n : Nat) (hp : 0 < prec) :
    (roundNat prec n).1 ≤ 2 ^ prec ∧
      2 * |((roundNat prec n).1 : Int) * 2 ^ (roundNat prec n).2 - n| ≤ 2 ^ (roundNat prec n).2 ∧
      (2 * |((roundNat prec n).1 : Int) * 2 ^ (roundNat prec n).2 - n| = 2 ^ (roundNat prec n).2 →
        (roundNat prec n).1 % 2 = 0) ∧
      ((roundNat prec n).2 = 0 ∨ 2 ^ (prec + (roundNat prec n).2 - 1) ≤ n) := by
  obtain ⟨hlt, hge⟩ := bitLen_spec n
  by_cases hs : bitLen n - prec = 0
  · have hr : roundNat prec n = (n, 0) := by simp [roundNat, hs]
    rw [hr]
    refine ⟨?_, by simp, by simp, Or.inl rfl⟩
    calc n ≤ 2 ^ bitLen n := hlt.le
      _ ≤ 2 ^ prec := Nat.pow_le_pow_right (by norm_num) (by omega)
  · obtain ⟨s, hs'⟩ : ∃ s, bitLen n - prec = s + 1 := ⟨bitLen n - prec - 1, by omega⟩
    have hbl : bitLen n = prec + (s + 1) := by omega
    have hn0 : n ≠ 0 := by
      rintro rfl
      simp [bitLen, bitLenAux] at hbl
      omega
    have hdiv := Nat.div_add_mod n (2 ^ (s + 1))
    have hmod : n % 2 ^ (s + 1) < 2 ^ (s + 1) := Nat.mod_lt _ (by positivity)
    have hq : n / 2 ^ (s + 1) < 2 ^ prec := by
      rw [Nat.div_lt_iff_lt_mul (by positivity), ← pow_add, ← hbl]
      exact hlt
    have hpow : (2 : Nat) ^ (s + 1) = 2 * 2 ^ s := by rw [pow_succ]; ring
    have hlow : 2 ^ (prec + (s + 1) - 1) ≤ n := by
      have := hge hn0
      rwa [hbl] at this
    set q := n / 2 ^ (s + 1) with hqdef
    set r := n % 2 ^ (s + 1) with hrdef
    have hnI : (n : Int) = 2 ^ (s + 1) * q + r := by exact_mod_cast hdiv.symm
    have hpowI : (2 : Int) ^ (s + 1) = 2 * 2 ^ s := by rw [pow_succ]; ring
    have hrI : (r : Int) < 2 * 2 ^ s := by
      have : (r : Int) < ((2 ^ (s + 1) : Nat) : Int) := by exact_mod_cast hmod
      rw [hpow] at this
      exact_mod_cast this
    have hr0 : (0 : Int) ≤ r := Int.natCast_nonneg r
    have hP : (0 : Int) < 2 ^ s := by positivity
    by_cases hup : 2 ^ s < r ∨ (r = 2 ^ s ∧ q % 2 = 1)
    · have hr : roundNat prec n = (q + 1, s + 1) := by
        simp only [roundNat, hs', Nat.add_sub_cancel]
        simp [hup, ← hqdef, ← hrdef]
      rw [hr]
      have hge' : (2 : Int) ^ s ≤ r := by
        rcases hup with h | ⟨h, _⟩
        · exact_mod_cast h.le
        · rw [h]; push_cast; exact le_refl _
      have habs : |((q + 1 : Nat) : Int) * 2 ^ (s + 1) - n| = 2 * 2 ^ s - r := by
        rw [hnI, hpowI, abs_of_nonneg] <;> push_cast <;> nlinarith
      refine ⟨by omega, ?_, ?_, Or.inr hlow⟩
      · rw [habs, hpowI]; linarith
      · rw [habs, hpowI]
        intro htie
        have hreq : (r : Int) = 2 ^ s := by linarith
        have hreq' : r = 2 ^ s := by exact_mod_cast hreq
        rcases hup with h | ⟨_, h⟩
        · omega
        · show (q + 1) % 2 = 0
          omega
    · have hr : roundNat prec n = (q, s + 1) := by
        simp only [roundNat, hs', Nat.add_sub_cancel]
        simp [hup, ← hqdef, ← hrdef]
      rw [hr]
      push_neg at hup
      have hle' : (r : Int) ≤ 2 ^ s := by exact_mod_cast hup.1
      have habs : |((q : Nat) : Int) * 2 ^ (s + 1) - n| = r := by
        rw [hnI, hpowI]
        have : (q : Int) * (2 * 2 ^ s) - (2 * 2 ^ s * q + r) = -r := by ring
        rw [this, abs_neg, abs_of_nonneg hr0]
      refine ⟨hq.le, ?_, ?_, Or.inr hlow⟩
      · rw [habs, hpowI]; linarith
      · rw [habs, hpowI]
        intro htie
        have hreq : (r : Int) = 2 ^ s := by linarith
        have hreq' : r = 2 ^ s := by exact_mod_cast hreq
        have := hup.2 hreq'
        show q % 2 = 0
        omega

theorem stripAux_value (fuel m : Nat) (e : Int) :
    ((stripAux fuel m e).1 : ℚ) * 2 ^ (stripAux fuel m e).2 = (m : ℚ) * 2 ^ e := by
  induction fuel generalizing m e with
  | zero => rfl
  | succ fuel ih =>
    by_cases h : m ≠ 0 ∧ m % 2 = 0
    · simp only [stripAux, if_pos h]
      have hm : (m : ℚ) = ((m / 2 : Nat) : ℚ) * 2 := by
        have : m = m / 2 * 2 := by omega
        exact_mod_cast this
      rw [ih, zpow_add_one₀ (by norm_num : (2 : ℚ) ≠ 0), hm]
      ring
    · simp only [stripAux, if_neg h]

theorem Dyadic.canon_value (d : Dyadic) : d.canon.value = d.value := by
  by_cases h : d.mant = 0
  · simp [Dyadic.canon, Dyadic.value, h]
  · simp only [Dyadic.canon, if_neg h, Dyadic.value]
    have hs := stripAux_value d.mant.natAbs d.mant.natAbs d.exp
    have hm : (d.mant : ℚ) = (Int.sign d.mant : ℚ) * (d.mant.natAbs : ℚ) := by
      conv_lhs => rw [← Int.sign_mul_natAbs d.mant]
      rw [Int.cast_mul, Int.cast_natCast]
    push_cast
    rw [mul_assoc, hs, ← mul_assoc, ← hm]

/-- Rounding of a dyadic is rounding to nearest, ties to even: the result is
`q * 2 ^ (exp + s)` with the sign of the input, where `q` has at most `prec`
bits (or is `2 ^ prec`), `q * 2 ^ s` is within half of `2 ^ s` of the input
mantissa, `q` is even when it is exactly half away, and `s` is `0` unless the
input mantissa has `prec + s` bits. -/
theorem Dyadic.round_nearest (prec : Nat) (hp : 0 < prec) (d : Dyadic) :
    ∃ q s : Nat,
      (Dyadic.round prec d).value = (Int.sign d.mant : ℚ) * q * 2 ^ (d.exp + s) ∧
      q ≤ 2 ^ prec ∧
      2 * |(q : Int) * 2 ^ s - d.mant.natAbs| ≤ 2 ^ s ∧
      (2 * |(q : Int) * 2 ^ s - d.mant.natAbs| = 2 ^ s → q % 2 = 0) ∧
      (s = 0 ∨ 2 ^ (prec + s - 1) ≤ d.mant.natAbs) := by
  obtain ⟨h1, h2, h3, h4⟩ := roundNat_spec prec d.mant.natAbs hp
  refine ⟨(roundNat prec d.mant.natAbs).1, (roundNat prec d.mant.natAbs).2, ?_, h1, h2, h3, h4⟩
  rw [Dyadic.round, Dyadic.canon_value]
  simp [Dyadic.value]

theorem Dyadic.value_mul (m₁ m₂ e₁ e₂ : Int) :
    Dyadic.value ⟨m₁ * m₂, e₁ + e₂⟩ = Dyadic.value ⟨m₁, e₁⟩ * Dyadic.value ⟨m₂, e₂⟩ := by
  simp only [Dyadic.value, Int.cast_mul]
  rw [zpow_add₀ (by norm_num : (2 : ℚ) ≠ 0)]
  ring

/-- Rounding to `prec` bits moves a value by at most its `2 ^ prec`-th part. -/
theorem Dyadic.round_rel (prec : Nat) (hp : 0 < prec) (d : Dyadic) :
    |(Dyadic.round prec d).value - d.value| ≤ |d.value| / 2 ^ prec := by
  obtain ⟨q, s, hv, _, hhalf, _, hs⟩ := Dyadic.round_nearest prec hp d
  have hE : (0 : ℚ) < 2 ^ d.exp := by positivity
  have hP : (0 : ℚ) < 2 ^ prec := by positivity
  have hS : (0 : ℚ) < 2 ^ s := by positivity
  have hsg : |(Int.sign d.mant : ℚ)| ≤ 1 := by
    rcases lt_trichotomy d.mant 0 with h | h | h
    · simp [Int.sign_eq_neg_one_of_neg h]
    · simp [h]
    · simp [Int.sign_eq_one_of_pos h]
  have hm : (d.mant : ℚ) = (Int.sign d.mant : ℚ) * (d.mant.natAbs : ℚ) := by
    conv_lhs => rw [← Int.sign_mul_natAbs d.mant]
    rw [Int.cast_mul, Int.cast_natCast]
  have hA0 : (0 : ℚ) ≤ (d.mant.natAbs : ℚ) := Nat.cast_nonneg _
  have habsv : |d.value| = (d.mant.natAbs : ℚ) * 2 ^ d.exp := by
    simp only [Dyadic.value]
    rw [abs_mul, abs_of_pos hE, Nat.cast_natAbs, Int.cast_abs]
  have hdiff : (Dyadic.round prec d).value - d.value =
      (Int.sign d.mant : ℚ) * (((q : ℚ) * 2 ^ s - (d.mant.natAbs : ℚ)) * 2 ^ d.exp) := by
    rw [hv]
    simp only [Dyadic.value]
    rw [zpow_add₀ (by norm_num : (2 : ℚ) ≠ 0), zpow_natCast, hm]
    ring
  have hhalfQ : 2 * |(q : ℚ) * 2 ^ s - (d.mant.natAbs : ℚ)| ≤ 2 ^ s := by
    have := hhalf
    have h' : ((2 * |(q : Int) * 2 ^ s - (d.mant.natAbs : Int)| : Int) : ℚ) ≤
        ((2 ^ s : Int) : ℚ) := by exact_mod_cast this
    push_cast at h'
    rw [Nat.cast_natAbs, Int.cast_abs]
    exact h'
  have hcore : |(q : ℚ) * 2 ^ s - (d.mant.natAbs : ℚ)| ≤ (d.mant.natAbs : ℚ) / 2 ^ prec := by
    rcases hs with h0 | hbig
    · subst h0
      have hz : |(q : Int) * 2 ^ 0 - (d.mant.natAbs : Int)| = 0 := by
        have h1 := hhalf
        have h2 := abs_nonneg ((q : Int) * 2 ^ 0 - (d.mant.natAbs : Int))
        simp only [pow_zero] at h1 ⊢
        simp only [pow_zero] at h2
        omega
      have hzq : ((q : Int) * 2 ^ 0 - (d.mant.natAbs : Int)) = 0 := abs_eq_zero.mp hz
      have hzQ : (q : ℚ) * 2 ^ 0 - (d.mant.natAbs : ℚ) = 0 := by exact_mod_cast hzq
      rw [hzQ, abs_zero]
      positivity
    · have hbigQ : (2 : ℚ) ^ (prec + s - 1) ≤ (d.mant.natAbs : ℚ) := by exact_mod_cast hbig
      have hpow : (2 : ℚ) ^ (prec + s) = 2 * 2 ^ (prec + s - 1) := by
        have : prec + s = (prec + s - 1) + 1 := by omega
        conv_lhs => rw [this, pow_succ]
        ring
      rw [le_div_iff₀ hP]
      have hps : (2 : ℚ) ^ (prec + s) = 2 ^ s * 2 ^ prec := by rw [pow_add]; ring
      have hx := abs_nonneg ((q : ℚ) * 2 ^ s - (d.mant.natAbs : ℚ))
      nlinarith
  rw [hdiff, abs_mul, habsv]
  have h3 : |((q : ℚ) * 2 ^ s - (d.mant.natAbs : ℚ)) * 2 ^ d.exp| ≤
      (d.mant.natAbs : ℚ) * 2 ^ d.exp / 2 ^ prec := by
    rw [abs_mul, abs_of_pos hE]
    calc |(q : ℚ) * 2 ^ s - (d.mant.natAbs : ℚ)| * 2 ^ d.exp
        ≤ (d.mant.natAbs : ℚ) / 2 ^ prec * 2 ^ d.exp :=
          mul_le_mul_of_nonneg_right hcore hE.le
      _ = (d.mant.natAbs : ℚ) * 2 ^ d.exp / 2 ^ prec := by ring
  calc |(Int.sign d.mant : ℚ)| * |((q : ℚ) * 2 ^ s - (d.mant.natAbs : ℚ)) * 2 ^ d.exp|
      ≤ 1 * |((q : ℚ) * 2 ^ s - (d.mant.natAbs : ℚ)) * 2 ^ d.exp| :=
        mul_le_mul_of_nonneg_right hsg (abs_nonneg _)
    _ ≤ (d.mant.natAbs : ℚ) * 2 ^ d.exp / 2 ^ prec := by rw [one_mul]; exact h3


theorem ToEther_eq (x : Int) :
    ToEther (some x) = some ⟨53, Dyadic.round 53
      ⟨attoLiteral.canon.mant * (Dyadic.round 53 ⟨x, 0⟩).mant,
       attoLiteral.canon.exp + (Dyadic.round 53 ⟨x, 0⟩).exp⟩⟩ := by
  simp [ToEther, NewFloat, BigFloat.SetInt, BigFloat.Mul]

theorem ToEther_error (x : Int) (f : BigFloat) (h : ToEther (some x) = some f) :
    f.prec = 53 ∧ |f.val.value - (x : ℚ) / 10 ^ 18| ≤ |(x : ℚ)| / 10 ^ 18 / 2 ^ 51 := by
  rw [ToEther_eq] at h
  cases h
  refine ⟨rfl, ?_⟩
  have hX : Dyadic.value ⟨x, 0⟩ = (x : ℚ) := by simp [Dyadic.value]
  have h1 := Dyadic.round_rel 53 (by norm_num) ⟨x, 0⟩
  rw [hX] at h1
  have hc : Dyadic.value ⟨attoLiteral.canon.mant, attoLiteral.canon.exp⟩ =
      1298074214633707 / 2 ^ 110 := by
    have : (⟨attoLiteral.canon.mant, attoLiteral.canon.exp⟩ : Dyadic) = attoLiteral.canon := rfl
    rw [this, Dyadic.canon_value]
    norm_num [attoLiteral, Dyadic.value, zpow_neg]
  have hY : Dyadic.value ⟨(Dyadic.round 53 ⟨x, 0⟩).mant, (Dyadic.round 53 ⟨x, 0⟩).exp⟩ =
      (Dyadic.round 53 ⟨x, 0⟩).value := rfl
  have h2 := Dyadic.round_rel 53 (by norm_num)
    ⟨attoLiteral.canon.mant * (Dyadic.round 53 ⟨x, 0⟩).mant,
     attoLiteral.canon.exp + (Dyadic.round 53 ⟨x, 0⟩).exp⟩
  rw [Dyadic.value_mul, hc, hY] at h2
  generalize (Dyadic.round 53 ⟨x, 0⟩).value = Y at h1 h2
  generalize (Dyadic.round 53
    ⟨attoLiteral.canon.mant * (Dyadic.round 53 ⟨x, 0⟩).mant,
     attoLiteral.canon.exp + (Dyadic.round 53 ⟨x, 0⟩).exp⟩).value = P at h2
  generalize (x : ℚ) = X at h1
  have hcpos : (0 : ℚ) < 1298074214633707 / 2 ^ 110 := by norm_num
  rw [abs_mul, abs_of_pos hcpos] at h2
  have hYle : |Y| ≤ |X| + |X| / 2 ^ 53 := by
    have := abs_sub_abs_le_abs_sub Y X
    linarith
  have hX0 := abs_nonneg X
  have key : P - X / 10 ^ 18 =
      (P - 1298074214633707 / 2 ^ 110 * Y) + 1298074214633707 / 2 ^ 110 * (Y - X) +
        X * (1298074214633707 / 2 ^ 110 - 1 / 10 ^ 18) := by ring
  have t1 : |1298074214633707 / 2 ^ 110 * (Y - X)| ≤
      1298074214633707 / 2 ^ 110 * (|X| / 2 ^ 53) := by
    rw [abs_mul, abs_of_pos hcpos]
    exact mul_le_mul_of_nonneg_left h1 hcpos.le
  have t2 : |X * ((1298074214633707 : ℚ) / 2 ^ 110 - 1 / 10 ^ 18)| ≤ |X| * (1 / 2 ^ 113) := by
    rw [abs_mul]
    apply mul_le_mul_of_nonneg_left _ hX0
    rw [abs_le]
    constructor <;> norm_num
  have t0 : |P - 1298074214633707 / 2 ^ 110 * Y| ≤
      1298074214633707 / 2 ^ 110 * (|X| + |X| / 2 ^ 53) / 2 ^ 53 := by
    refine h2.trans ?_
    have := mul_le_mul_of_nonneg_left hYle hcpos.le
    have hp : (0 : ℚ) < 2 ^ 53 := by positivity
    exact div_le_div_of_nonneg_right this hp.le
  rw [key]
  refine (abs_add_three _ _ _).trans ?_
  have hfin : (1298074214633707 : ℚ) / 2 ^ 110 * (|X| + |X| / 2 ^ 53) / 2 ^ 53 +
      1298074214633707 / 2 ^ 110 * (|X| / 2 ^ 53) + |X| * (1 / 2 ^ 113) ≤
      |X| / 10 ^ 18 / 2 ^ 51 := by
    have : (1298074214633707 : ℚ) / 2 ^ 110 * (|X| + |X| / 2 ^ 53) / 2 ^ 53 +
      1298074214633707 / 2 ^ 110 * (|X| / 2 ^ 53) + |X| * (1 / 2 ^ 113) =
      |X| * ((1298074214633707 : ℚ) / 2 ^ 110 * (1 + 1 / 2 ^ 53) / 2 ^ 53 +
        1298074214633707 / 2 ^ 110 / 2 ^ 53 + 1 / 2 ^ 113) := by ring
    rw [this]
    have : |X| / 10 ^ 18 / 2 ^ 51 = |X| * (1 / 10 ^ 18 / 2 ^ 51) := by ring
    rw [this]
    apply mul_le_mul_of_nonneg_left _ hX0
    norm_num
  linarith

/-! ## Lemmas: machine integers and hex encoding -/

theorem wrapInt64_eq (x : Int) (h1 : -(2 ^ 63) ≤ x) (h2 : x < 2 ^ 63) : wrapInt64 x = x := by
  unfold wrapInt64
  norm_num at h1 h2 ⊢
  omega

set_option maxRecDepth 100000 in
theorem hexByte_a9 : ∀ a : Fin 256,
    (hexDigit (a.val / 16) = 'a' ∧ hexDigit (a.val % 16) = '9') ↔ a = 0xa9 := by decide

set_option maxRecDepth 100000 in
theorem hexByte_05 : ∀ a : Fin 256,
    (hexDigit (a.val / 16) = '0' ∧ hexDigit (a.val % 16) = '5') ↔ a = 0x05 := by decide

set_option maxRecDepth 100000 in
theorem hexByte_9c : ∀ a : Fin 256,
    (hexDigit (a.val / 16) = '9' ∧ hexDigit (a.val % 16) = 'c') ↔ a = 0x9c := by decide

set_option maxRecDepth 100000 in
theorem hexByte_bb : ∀ a : Fin 256,
    (hexDigit (a.val / 16) = 'b' ∧ hexDigit (a.val % 16) = 'b') ↔ a = 0xbb := by decide

theorem Encode_four (a b c d : Fin 256) :
    Encode [a, b, c, d] = "0xa9059cbb" ↔ [a, b, c, d] = [0xa9, 0x05, 0x9c, 0xbb] := by
  have e : ("0xa9059cbb" : String) = String.mk ['0', 'x', 'a', '9', '0', '5', '9', 'c', 'b', 'b'] := by
    decide
  rw [e]
  simp only [Encode, hexEncode, String.ext_iff, List.cons.injEq, and_true, true_and]
  rw [← hexByte_a9 a, ← hexByte_05 b, ← hexByte_9c c, ← hexByte_bb d]
  tauto


theorem Encode_take_four (data : List (Fin 256)) (h : 4 ≤ data.length) :
    Encode (data.take 4) = "0xa9059cbb" ↔ data.take 4 = [0xa9, 0x05, 0x9c, 0xbb] := by
  match data, h with
  | a :: b :: c :: d :: rest, _ =>
    simp only [List.take_succ_cons, List.take_zero]
    exact Encode_four a b c d

/-! ## Lemmas: the loop of `CalculateTotals` -/

theorem body_TotalEth (g : GethInfo) (b : Transaction) :
    (CalculateTotals.body g b).TotalEth = g.TotalEth + b.Value := by
  simp only [CalculateTotals.body]
  split_ifs <;> rfl

theorem body_CurrentBlock (g : GethInfo) (b : Transaction) :
    (CalculateTotals.body g b).CurrentBlock = g.CurrentBlock := by
  simp only [CalculateTotals.body]
  split_ifs <;> rfl

theorem body_ContractsCreated (g : GethInfo) (b : Transaction) :
    (CalculateTotals.body g b).ContractsCreated =
      if b.To = none then wrapInt64 (g.ContractsCreated + 1) else g.ContractsCreated := by
  simp only [CalculateTotals.body]
  split_ifs <;> rfl

theorem body_TokenTransfers (g : GethInfo) (b : Transaction) :
    (CalculateTotals.body g b).TokenTransfers =
      if 4 ≤ b.Data.length ∧ Encode (b.Data.take 4) = "0xa9059cbb"
      then wrapInt64 (g.TokenTransfers + 1) else g.TokenTransfers := by
  simp only [CalculateTotals.body]
  split_ifs <;> first | rfl | (exfalso; tauto)

theorem body_EthTransfers (g : GethInfo) (b : Transaction) :
    (CalculateTotals.body g b).EthTransfers =
      if Int.sign b.Value = 1 then wrapInt64 (g.EthTransfers + 1) else g.EthTransfers := by
  simp only [CalculateTotals.body]
  split_ifs <;> rfl

theorem foldl_body_TotalEth (l : List Transaction) (g : GethInfo) :
    (l.foldl CalculateTotals.body g).TotalEth = g.TotalEth + (l.map (·.Value)).sum := by
  induction l generalizing g with
  | nil => simp
  | cons t l ih =>
    simp only [List.foldl_cons, List.map_cons, List.sum_cons]
    rw [ih, body_TotalEth]
    ring

theorem foldl_body_CurrentBlock (l : List Transaction) (g : GethInfo) :
    (l.foldl CalculateTotals.body g).CurrentBlock = g.CurrentBlock := by
  induction l generalizing g with
  | nil => rfl
  | cons t l ih => rw [List.foldl_cons, ih, body_CurrentBlock]

theorem foldl_body_ContractsCreated (l : List Transaction) (g : GethInfo)
    (h0 : 0 ≤ g.ContractsCreated) (h : g.ContractsCreated + l.length < 2 ^ 63) :
    (l.foldl CalculateTotals.body g).ContractsCreated =
      g.ContractsCreated + (l.countP (fun t => decide (t.To = none)) : Nat) := by
  induction l generalizing g with
  | nil => simp
  | cons t l ih =>
    have hl : ((t :: l).length : Int) = (l.length : Int) + 1 := by simp
    rw [hl] at h
    have hw : wrapInt64 (g.ContractsCreated + 1) = g.ContractsCreated + 1 :=
      wrapInt64_eq _ (by omega) (by omega)
    rw [List.foldl_cons, ih]
    · rw [body_ContractsCreated, List.countP_cons]
      by_cases hc : t.To = none
      · simp only [hc, if_true, hw, decide_True]
        push_cast
        ring
      · simp [hc]
    · rw [body_ContractsCreated]
      split_ifs
      · rw [hw]; omega
      · exact h0
    · rw [body_ContractsCreated]
      split_ifs
      · rw [hw]; omega
      · omega

theorem foldl_body_TokenTransfers (l : List Transaction) (g : GethInfo)
    (h0 : 0 ≤ g.TokenTransfers) (h : g.TokenTransfers + l.length < 2 ^ 63) :
    (l.foldl CalculateTotals.body g).TokenTransfers =
      g.TokenTransfers +
        (l.countP (fun t => decide (4 ≤ t.Data.length ∧
          t.Data.take 4 = [0xa9, 0x05, 0x9c, 0xbb])) : Nat) := by
  induction l generalizing g with
  | nil => simp
  | cons t l ih =>
    have hl : ((t :: l).length : Int) = (l.length : Int) + 1 := by simp
    rw [hl] at h
    have hw : wrapInt64 (g.TokenTransfers + 1) = g.TokenTransfers + 1 :=
      wrapInt64_eq _ (by omega) (by omega)
    have hiff : (4 ≤ t.Data.length ∧ Encode (t.Data.take 4) = "0xa9059cbb") ↔
        (4 ≤ t.Data.length ∧ t.Data.take 4 = [0xa9, 0x05, 0x9c, 0xbb]) :=
      and_congr_right (fun h4 => Encode_take_four t.Data h4)
    rw [List.foldl_cons, ih]
    · rw [body_TokenTransfers, List.countP_cons]
      by_cases hc : 4 ≤ t.Data.length ∧ t.Data.take 4 = [0xa9, 0x05, 0x9c, 0xbb]
      · rw [if_pos (hiff.mpr hc), hw]
        simp only [hc, and_self, decide_True, if_true]
        push_cast
        ring
      · rw [if_neg (fun h' => hc (hiff.mp h'))]
        simp [hc]
    · rw [body_TokenTransfers]
      split_ifs
      · rw [hw]; omega
      · exact h0
    · rw [body_TokenTransfers]
      split_ifs
      · rw [hw]; omega
      · omega

theorem foldl_body_EthTransfers (l : List Transaction) (g : GethInfo)
    (h0 : 0 ≤ g.EthTransfers) (h : g.EthTransfers + l.length < 2 ^ 63) :
    (l.foldl CalculateTotals.body g).EthTransfers =
      g.EthTransfers + (l.countP (fun t => decide (0 < t.Value)) : Nat) := by
  induction l generalizing g with
  | nil => simp
  | cons t l ih =>
    have hl : ((t :: l).length : Int) = (l.length : Int) + 1 := by simp
    rw [hl] at h
    have hw : wrapInt64 (g.EthTransfers + 1) = g.EthTransfers + 1 :=
      wrapInt64_eq _ (by omega) (by omega)
    rw [List.foldl_cons, ih]
    · rw [body_EthTransfers, List.countP_cons]
      by_cases hc : 0 < t.Value
      · rw [if_pos (Int.sign_eq_one_iff_pos.mpr hc), hw]
        simp only [hc, decide_True, if_true]
        push_cast
        ring
      · rw [if_neg (fun h' => hc (Int.sign_eq_one_iff_pos.mp h'))]
        simp [hc]
    · rw [body_EthTransfers]
      split_ifs
      · rw [hw]; omega
      · exact h0
    · rw [body_EthTransfers]
      split_ifs
      · rw [hw]; omega
      · omega

theorem CalculateTotals_BlockSize (lib : Library) (g : GethInfo) (block cur : Block)
    (h : g.CurrentBlock = some cur) :
    (CalculateTotals lib g block).state.BlockSize =
      Float64.mul (stringToFloat lib ((Split cur.SizeString ' ').headD "")) (Float64.ofInt 1000) := by
  have hc := foldl_body_CurrentBlock block.Transactions
    { g with TotalEth := 0, ContractsCreated := 0, TokenTransfers := 0, EthTransfers := 0 }
  have hc' : (block.Transactions.foldl CalculateTotals.body
    { g with TotalEth := 0, ContractsCreated := 0, TokenTransfers := 0, EthTransfers := 0 }
    ).CurrentBlock = some cur := hc.trans h
  simp only [CalculateTotals]
  split
  · next h' => rw [hc'] at h'; cases h'
  · next cur' h' =>
    rw [hc'] at h'
    cases h'
    rfl

theorem MetricsHttp_geth (lib : Library) (taskPrefix : String) (now : Time) (g : GethInfo)
    (addresses : AddrMap) (b : Block) (h : g.CurrentBlock = some b) :
    (MetricsHttp lib taskPrefix now g addresses).geth = (CalculateTotals lib g b).state := by
  simp only [MetricsHttp, h]
  split
  · rfl
  · split
    · rfl
    · split <;> rfl

theorem MetricsHttp_none (lib : Library) (taskPrefix : String) (now : Time) (g : GethInfo)
    (addresses : AddrMap) (h : g.CurrentBlock = none) :
    MetricsHttp lib taskPrefix now g addresses =
      { geth := g, header := some 500,
        writes := [[⟨"issue receiving block from URL: %v", [.str g.GethServer]⟩]],
        panicked := false } := by
  simp only [MetricsHttp, h]

theorem MetricsHttp_status_some (lib : Library) (taskPrefix : String) (now : Time)
    (g : GethInfo) (addresses : AddrMap) (b : Block) (h : g.CurrentBlock = some b) :
    (MetricsHttp lib taskPrefix now g addresses).status = none ∨
      (MetricsHttp lib taskPrefix now g addresses).status = some 200 := by
  simp only [MetricsHttp, h]
  split
  · left; simp [HttpResult.status]
  · split
    · left; simp [HttpResult.status]
    · split
      · left; simp [HttpResult.status]
      · right; simp [HttpResult.status]

theorem CalculateTotals_state (lib : Library) (g : GethInfo) (block : Block) :
    let s := (CalculateTotals lib g block).state
    let f := block.Transactions.foldl CalculateTotals.body
      { g with TotalEth := 0, ContractsCreated := 0, TokenTransfers := 0, EthTransfers := 0 }
    s.TotalEth = f.TotalEth ∧ s.ContractsCreated = f.ContractsCreated ∧
      s.TokenTransfers = f.TokenTransfers ∧ s.EthTransfers = f.EthTransfers ∧
      s.CurrentBlock = g.CurrentBlock := by
  have hc := foldl_body_CurrentBlock block.Transactions
    { g with TotalEth := 0, ContractsCreated := 0, TokenTransfers := 0, EthTransfers := 0 }
  simp only [CalculateTotals]
  split <;> simp_all

theorem CalculateTotals_panicked (lib : Library) (g : GethInfo) (block : Block) :
    (CalculateTotals lib g block).panicked = g.CurrentBlock.isNone := by
  have hc := foldl_body_CurrentBlock block.Transactions
    { g with TotalEth := 0, ContractsCreated := 0, TokenTransfers := 0, EthTransfers := 0 }
  simp only [CalculateTotals]
  split
  · next h =>
    rw [hc] at h
    have h' : g.CurrentBlock = none := h
    simp [h']
  · next cur h =>
    rw [hc] at h
    have h' : g.CurrentBlock = some cur := h
    simp [h']


/-! ## Lemmas: the map of watched addresses -/

theorem AddrMap.get_set_self (m : AddrMap) (k : String) (v : Address) :
    AddrMap.get (AddrMap.set m k v) k = some v := by
  induction m with
  | nil => simp [AddrMap.set, AddrMap.get, List.lookup]
  | cons p m ih =>
    obtain ⟨k', v'⟩ := p
    by_cases hk : k' = k
    · simp [AddrMap.set, AddrMap.get, List.lookup, hk]
    · have hk' : (k == k') = false := by simpa using fun h => hk h.symm
      simp only [AddrMap.set, if_neg hk, AddrMap.get, List.lookup, hk']
      exact ih

theorem AddrMap.get_set_other (m : AddrMap) (k k' : String) (v : Address) (h : k' ≠ k) :
    AddrMap.get (AddrMap.set m k v) k' = AddrMap.get m k' := by
  induction m with
  | nil =>
    have hk : (k' == k) = false := by simpa using h
    simp [AddrMap.set, AddrMap.get, List.lookup, hk]
  | cons p m ih =>
    obtain ⟨k₁, v₁⟩ := p
    by_cases hk : k₁ = k
    · subst hk
      have hk' : (k' == k₁) = false := by simpa using h
      simp [AddrMap.set, AddrMap.get, List.lookup, hk']
    · simp only [AddrMap.set, if_neg hk, AddrMap.get, List.lookup]
      cases hkk : (k' == k₁)
      · exact ih
      · rfl

/-- The loop over the watch list, for the pieces `ws` numbered from `n`. -/
theorem foldl_watch_get (lib : Library) (env : CycleEnv) (ws : List String) (n : Nat)
    (m : AddrMap) (a : String) :
    (a ∉ ws ∧ AddrMap.get ((ws.enumFrom n).foldl (Routine.watch lib env) m) a =
        AddrMap.get m a) ∨
    ∃ i, ws[i]? = some a ∧ (∀ j, i < j → ws[j]? ≠ some a) ∧
      AddrMap.get ((ws.enumFrom n).foldl (Routine.watch lib env) m) a =
        some { Address := lib.HexToAddressString a, Balance := (env.BalanceAt (n + i)).val,
               Nonce := (env.NonceAt (n + i)).val } := by
  induction ws generalizing n m with
  | nil => left; simp
  | cons w ws ih =>
    simp only [List.enumFrom_cons, List.foldl_cons]
    rcases ih (n + 1) (Routine.watch lib env m (n, w)) with ⟨hn, hg⟩ | ⟨i, hi, hlast, hg⟩
    · by_cases hw : a = w
      · right
        refine ⟨0, by simp [hw], ?_, ?_⟩
        · intro j hj
          obtain ⟨j', rfl⟩ : ∃ j', j = j' + 1 := ⟨j - 1, by omega⟩
          simp only [List.getElem?_cons_succ]
          intro hc
          exact hn (List.getElem?_mem hc)
        · rw [hg, hw]
          simp only [Routine.watch, Nat.add_zero]
          exact AddrMap.get_set_self _ _ _
      · left
        refine ⟨by simp [hw, hn], ?_⟩
        rw [hg]
        simp only [Routine.watch]
        exact AddrMap.get_set_other _ _ _ _ hw
    · right
      refine ⟨i + 1, by simpa using hi, ?_, ?_⟩
      · intro j hj
        obtain ⟨j', rfl⟩ : ∃ j', j = j' + 1 := ⟨j - 1, by omega⟩
        simp only [List.getElem?_cons_succ]
        exact hlast j' (by omega)
      · rw [hg]
        have : n + 1 + i = n + (i + 1) := by omega
        rw [this]

theorem CalculateTotals_sum (lib : Library) (g : GethInfo) (B : Block) :
    (CalculateTotals lib g B).state.TotalEth = (B.Transactions.map (·.Value)).sum := by
  rw [(CalculateTotals_state lib g B).1, foldl_body_TotalEth]
  simp

theorem CalculateTotals_countToken (lib : Library) (g : GethInfo) (B : Block) :
    (CalculateTotals lib g B).state.TokenTransfers =
      (B.Transactions.countP (fun t => decide (4 ≤ t.Data.length ∧
        t.Data.take 4 = [0xa9, 0x05, 0x9c, 0xbb])) : Nat) := by
  rw [(CalculateTotals_state lib g B).2.2.1, foldl_body_TokenTransfers]
  · simp
  · simp
  · have := B.lenTransactions
    simp only [zero_add]
    exact_mod_cast this

theorem CalculateTotals_countCreated (lib : Library) (g : GethInfo) (B : Block) :
    (CalculateTotals lib g B).state.ContractsCreated =
      (B.Transactions.countP (fun t => decide (t.To = none)) : Nat) := by
  rw [(CalculateTotals_state lib g B).2.1, foldl_body_ContractsCreated]
  · simp
  · simp
  · have := B.lenTransactions
    simp only [zero_add]
    exact_mod_cast this

theorem CalculateTotals_countEth (lib : Library) (g : GethInfo) (B : Block) :
    (CalculateTotals lib g B).state.EthTransfers =
      (B.Transactions.countP (fun t => decide (0 < t.Value)) : Nat) := by
  rw [(CalculateTotals_state lib g B).2.2.2.1, foldl_body_EthTransfers]
  · simp
  · simp
  · have := B.lenTransactions
    simp only [zero_add]
    exact_mod_cast this

/-! ## The aggregates of `CalculateTotals` -/

/-- C1: for every block and every prior state, `CalculateTotals` leaves in
`TotalEth` the exact sum of the values of the transactions of the block; the
call returns normally exactly when a block is stored in `geth.CurrentBlock`. -/
theorem CalculateTotals_TotalEth (lib : Library) (g : GethInfo) (B : Block) :
    (CalculateTotals lib g B).state.TotalEth = (B.Transactions.map (·.Value)).sum ∧
      (CalculateTotals lib g B).panicked = g.CurrentBlock.isNone :=
  ⟨CalculateTotals_sum lib g B, CalculateTotals_panicked lib g B⟩

/-- C2: for every block and every prior state, `CalculateTotals` leaves in
`TokenTransfers` the number of transactions whose payload has at least 4 bytes
of which the first 4 are `a9 05 9c bb`: such a transaction counts once, a
shorter payload never counts. -/
theorem CalculateTotals_TokenTransfers (lib : Library) (g : GethInfo) (B : Block) :
    (CalculateTotals lib g B).state.TokenTransfers =
      (B.Transactions.countP (fun t => decide (4 ≤ t.Data.length ∧
        t.Data.take 4 = [0xa9, 0x05, 0x9c, 0xbb])) : Nat) :=
  CalculateTotals_countToken lib g B

/-- C3: for every block and every prior state, `CalculateTotals` leaves in
`ContractsCreated` the number of transactions without a destination, whatever
their payload or value. -/
theorem CalculateTotals_ContractsCreated (lib : Library) (g : GethInfo) (B : Block) :
    (CalculateTotals lib g B).state.ContractsCreated =
      (B.Transactions.countP (fun t => decide (t.To = none)) : Nat) :=
  CalculateTotals_countCreated lib g B

/-! ## The accuracy of `ToEther` -/

/-- The literal used for `10⁻¹⁸` is a 53-bit number within half a unit in the
last place of `10⁻¹⁸`: it is the `float64` the literal denotes. -/
theorem attoLiteral_nearest :
    2 ^ 52 ≤ attoLiteral.mant * 4 ∧ attoLiteral.mant * 4 < 2 ^ 53 ∧
      |attoLiteral.value - 1 / 10 ^ 18| < 2 ^ (-113 : ℤ) := by
  refine ⟨by decide, by decide, ?_⟩
  rw [abs_lt]
  constructor <;> norm_num [attoLiteral, Dyadic.value, zpow_neg]

set_option maxRecDepth 100000 in
/-- C8 as stated fails: conversion is not exact for every round amount.
`ToEther(7·10¹⁸)` has the value `7 + 2⁻⁵⁰`, not 7, and `ToEther(10²⁰)` the
value `100 + 2⁻⁴⁶`, not 100. -/
theorem ToEther_inexact :
    (ToEther (some (7 * 10 ^ 18))).map (fun f => (f.prec, f.val.value)) =
        some (53, 7 + 1 / 2 ^ 50) ∧
      (ToEther (some (7 * 10 ^ 18))).map (fun f => f.val.value) ≠ some 7 ∧
      (ToEther (some (10 ^ 20))).map (fun f => (f.prec, f.val.value)) =
        some (53, 100 + 1 / 2 ^ 46) ∧
      (ToEther (some (10 ^ 20))).map (fun f => f.val.value) ≠ some 100 := by
  have h7 : ToEther (some (7 * 10 ^ 18)) = some ⟨53, ⟨7881299347898369, -50⟩⟩ := by decide
  have h100 : ToEther (some (10 ^ 20)) = some ⟨53, ⟨7036874417766401, -46⟩⟩ := by decide
  rw [h7, h100]
  refine ⟨?_, ?_, ?_, ?_⟩ <;> norm_num [Dyadic.value, zpow_neg]

set_option maxRecDepth 100000 in
/-- C8, amended: `ToEther(10¹⁸)` returns a number whose value is exactly 1 and
`ToEther(0)` one whose value is exactly 0, both at precision 53; for every
amount `x` the call returns the product of the `float64` literal and `x`
rounded to 53 bits, itself rounded to 53 bits (nearest, ties to even), which
lies within the `2⁵¹`-th part of `x / 10¹⁸` of that quotient. -/
theorem ToEther_accuracy (x : Int) :
    (ToEther (some (10 ^ 18))).map (fun f => (f.prec, f.val.value)) = some (53, 1) ∧
      (ToEther (some 0)).map (fun f => (f.prec, f.val.value)) = some (53, 0) ∧
      ∃ f, ToEther (some x) = some f ∧ f.prec = 53 ∧
        f.val = Dyadic.round 53
          ⟨attoLiteral.canon.mant * (Dyadic.round 53 ⟨x, 0⟩).mant,
           attoLiteral.canon.exp + (Dyadic.round 53 ⟨x, 0⟩).exp⟩ ∧
        |f.val.value - (x : ℚ) / 10 ^ 18| ≤ |(x : ℚ)| / 10 ^ 18 / 2 ^ 51 := by
  have h1 : ToEther (some (10 ^ 18)) = some ⟨53, ⟨1, 0⟩⟩ := by decide
  have h0 : ToEther (some 0) = some ⟨53, ⟨0, 0⟩⟩ := by decide
  refine ⟨?_, ?_, _, ToEther_eq x, rfl, rfl, (ToEther_error x _ (ToEther_eq x)).2⟩
  · rw [h1]
    simp [Dyadic.value]
  · rw [h0]
    simp [Dyadic.value]

/-! ## `MetricsHttp` without a stored block -/

/-- C9: when `CurrentBlock` is nil, `MetricsHttp` answers 500 with the
message alone as body and leaves the shared record as it was; when a block is
stored the status is never 500. -/
theorem MetricsHttp_unavailable (lib : Library) (taskPrefix : String) (now : Time)
    (g : GethInfo) (addresses : AddrMap) :
    (g.CurrentBlock = none →
      MetricsHttp lib taskPrefix now g addresses =
        { geth := g, header := some 500,
          writes := [[⟨"issue receiving block from URL: %v", [.str g.GethServer]⟩]],
          panicked := false } ∧
      (MetricsHttp lib taskPrefix now g addresses).status = some 500) ∧
    (g.CurrentBlock ≠ none →
      (MetricsHttp lib taskPrefix now g addresses).status ≠ some 500) := by
  constructor
  · intro h
    have e := MetricsHttp_none lib taskPrefix now g addresses h
    refine ⟨e, ?_⟩
    rw [e]
    rfl
  · intro h
    obtain ⟨b, hb⟩ := Option.ne_none_iff_exists'.mp h
    rcases MetricsHttp_status_some lib taskPrefix now g addresses b hb with h' | h' <;>
      rw [h'] <;> simp

/-- C9, at an empty record and at a record holding a block. -/
theorem MetricsHttp_unavailable_witness :
    (MetricsHttp exampleLib "geth-node" 2000 initGeth []).status = some 500 ∧
      (MetricsHttp exampleLib "geth-node" 2000 laterState.geth laterState.addresses).status
        ≠ some 500 :=
  ⟨((MetricsHttp_unavailable exampleLib "geth-node" 2000 initGeth []).1 rfl).2,
   (MetricsHttp_unavailable exampleLib "geth-node" 2000 laterState.geth
      laterState.addresses).2 (by decide)⟩

/-! ## A failing block query -/

/-- C4 as stated fails: a cycle whose block query fails with a nil block
replaces the stored block 5 by nil, and the next metrics request, which was
answered 200 before the cycle, is answered 500. -/
theorem Routine_blockFailure_overwrites :
    laterState.geth.CurrentBlock = some (emptyBlock 5) ∧
      (Routine.cycle exampleLib "" (exampleEnv 1000 (.err none)) laterState).geth.CurrentBlock
        = none ∧
      (MetricsHttp exampleLib "geth-node" 2000 laterState.geth laterState.addresses).status
        = some 200 ∧
      (MetricsHttp exampleLib "geth-node" 2000
        (Routine.cycle exampleLib "" (exampleEnv 1000 (.err none)) laterState).geth
        (Routine.cycle exampleLib "" (exampleEnv 1000 (.err none)) laterState).addresses).status
        = some 500 := by
  refine ⟨by rfl, by rfl, by decide, by decide⟩

/-- C4, amended: a cycle whose block query fails stores the block pointer
that came with the error in `CurrentBlock` and changes nothing else, neither
in the record, nor in the watch map, nor in `lastBlock`; when that pointer is
nil, a metrics request after the cycle is answered 500. -/
theorem Routine_blockFailure (lib : Library) (watchingAddresses taskPrefix : String)
    (now : Time) (env : CycleEnv) (st : RoutineState) (blk : Option Block)
    (h : env.BlockByNumber = .err blk) :
    Routine.cycle lib watchingAddresses env st =
        { st with geth := { st.geth with CurrentBlock := blk } } ∧
      (blk = none →
        (MetricsHttp lib taskPrefix now (Routine.cycle lib watchingAddresses env st).geth
          (Routine.cycle lib watchingAddresses env st).addresses).status = some 500) := by
  have e : Routine.cycle lib watchingAddresses env st =
      { st with geth := { st.geth with CurrentBlock := blk } } := by
    simp only [Routine.cycle, h]
  refine ⟨e, ?_⟩
  intro hn
  rw [e, MetricsHttp_none lib taskPrefix now _ _ (by simp [hn])]
  rfl

/-- C4, amended, at a failing cycle after block 5 was stored. -/
theorem Routine_blockFailure_witness :
    (exampleEnv 1000 (.err none)).BlockByNumber = .err none ∧
      Routine.cycle exampleLib "" (exampleEnv 1000 (.err none)) laterState =
        { laterState with geth := { laterState.geth with CurrentBlock := none } } :=
  ⟨rfl, (Routine_blockFailure exampleLib "" "geth-node" 2000 (exampleEnv 1000 (.err none))
    laterState none rfl).1⟩

/-! ## Height advancement -/

/-- C5 as stated fails: on the heights 5, 5, 7, 7, 9 the first cycle, in
which `lastBlock` is nil, changes `LastBlockUpdate` too. -/
theorem Routine_first_cycle_updates :
    (Routine.start "node" (emptyBlock 5)).lastBlock = none ∧
      (Routine.cycle exampleLib "" (exampleEnv 1000 (.ok (emptyBlock 5)))
          (Routine.start "node" (emptyBlock 5))).geth.LastBlockUpdate ≠
        (Routine.start "node" (emptyBlock 5)).geth.LastBlockUpdate ∧
      Routine.updates exampleLib "" (heightEnvs [5, 5, 7, 7, 9])
          (Routine.start "node" (emptyBlock 5)) ≠ [false, false, true, false, true] := by
  refine ⟨rfl, by decide, by decide⟩

/-- C5, amended: a cycle assigns `LastBlockUpdate` exactly when its block
query succeeds and either `lastBlock` is nil (no block observed yet) or the
new height is strictly greater than the height of `lastBlock`, which is the
block of the latest successful cycle; otherwise the field keeps its value.
On the heights 5, 5, 7, 7, 9 from the start it changes in the first, third
and fifth cycles only: with a reading of the clock at 1001 ns, 2001 ns, ...
the stored instants after 0 to 5 cycles are 0, 1001, 1001, 3001, 3001, 5001. -/
theorem Routine_LastBlockUpdate (lib : Library) (watchingAddresses : String)
    (env : CycleEnv) (st : RoutineState) :
    (Routine.cycle lib watchingAddresses env st).geth.LastBlockUpdate =
        (match env.BlockByNumber, st.lastBlock with
         | .err _, _ => st.geth.LastBlockUpdate
         | .ok _, none => env.nowUpdate
         | .ok blk, some last =>
           if last.NumberU64 < blk.NumberU64 then env.nowUpdate
           else st.geth.LastBlockUpdate) ∧
      (Routine.cycle lib watchingAddresses env st).lastBlock =
        (match env.BlockByNumber with
         | .err _ => st.lastBlock
         | .ok blk => some blk) ∧
      Routine.updates exampleLib "" (heightEnvs [5, 5, 7, 7, 9])
          (Routine.start "node" (emptyBlock 5)) = [true, false, true, false, true] ∧
      (List.range 6).map (fun k =>
          (Routine exampleLib "" ((heightEnvs [5, 5, 7, 7, 9]).take k)
            (Routine.start "node" (emptyBlock 5))).geth.LastBlockUpdate) =
        [0, 1001, 1001, 3001, 3001, 5001] := by
  refine ⟨?_, ?_, by decide, by decide⟩
  · cases hb : env.BlockByNumber with
    | err blk => simp only [Routine.cycle, hb]
    | ok blk =>
      cases hl : st.lastBlock with
      | none => simp [Routine.cycle, hb, hl]
      | some last =>
        by_cases hlt : last.NumberU64 < blk.NumberU64 <;> simp [Routine.cycle, hb, hl, hlt]
  · cases hb : env.BlockByNumber <;> simp [Routine.cycle, hb]

/-! ## The watch list -/

/-- C6 as stated fails: in a cycle where the balance query for the watched
address fails and the nonce query succeeds, the stored entry (balance 5,
nonce 3) is replaced by the two returned values (balance 0, nonce 4). -/
theorem Routine_watch_overwrites :
    (partialEnv.BalanceAt 0).failed = true ∧
      AddrMap.get laterState.addresses watched =
        some { Balance := some 5, Address := watched, Nonce := 3 } ∧
      AddrMap.get (Routine.cycle exampleLib watched partialEnv laterState).addresses watched =
        some { Balance := some 0, Address := watched, Nonce := 4 } := by
  refine ⟨rfl, by decide, by decide⟩

/-- C6, amended: in a cycle whose block query succeeds, with a non-empty
watch list, the entry of every piece `a` of the list is replaced by the
rendered address together with the balance and the nonce that the two queries
returned for the last occurrence of `a`, whether or not either query reported
an error. -/
theorem Routine_watch (lib : Library) (watchingAddresses : String) (env : CycleEnv)
    (st : RoutineState) (blk : Block) (a : String)
    (hb : env.BlockByNumber = .ok blk) (hw : watchingAddresses ≠ "")
    (ha : a ∈ Split watchingAddresses ',') :
    ∃ i, (Split watchingAddresses ',')[i]? = some a ∧
      (∀ j, i < j → (Split watchingAddresses ',')[j]? ≠ some a) ∧
      AddrMap.get (Routine.cycle lib watchingAddresses env st).addresses a =
        some { Address := lib.HexToAddressString a, Balance := (env.BalanceAt i).val,
               Nonce := (env.NonceAt i).val } := by
  have hc : (Routine.cycle lib watchingAddresses env st).addresses =
      ((Split watchingAddresses ',').enum).foldl (Routine.watch lib env) st.addresses := by
    simp [Routine.cycle, hb, hw]
  rw [hc]
  rcases foldl_watch_get lib env (Split watchingAddresses ',') 0 st.addresses a with
    ⟨hn, _⟩ | ⟨i, hi, hlast, hg⟩
  · exact absurd ha hn
  · refine ⟨i, hi, hlast, ?_⟩
    simpa [List.enum] using hg

/-- C6, amended, at the cycle whose balance query fails. -/
theorem Routine_watch_witness :
    partialEnv.BlockByNumber = .ok (emptyBlock 6) ∧ watched ≠ "" ∧
      watched ∈ Split watched ',' ∧
      ∃ i, (Split watched ',')[i]? = some watched ∧
        (∀ j, i < j → (Split watched ',')[j]? ≠ some watched) ∧
        AddrMap.get (Routine.cycle exampleLib watched partialEnv laterState).addresses watched =
          some { Address := exampleLib.HexToAddressString watched,
                 Balance := (partialEnv.BalanceAt i).val,
                 Nonce := (partialEnv.NonceAt i).val } :=
  ⟨rfl, by decide, by decide,
    Routine_watch exampleLib watched partialEnv laterState (emptyBlock 6) watched rfl
      (by decide) (by decide)⟩

/-! ## The best-effort queries -/

/-- C7 as stated fails: in a cycle whose block query succeeds and whose
gas-price query fails, the stored gas price 20 is replaced by the returned
nil. -/
theorem Routine_bestEffort_overwrites :
    partialEnv.BlockByNumber = .ok (emptyBlock 6) ∧
      partialEnv.SuggestGasPrice.failed = true ∧
      laterState.geth.SugGasPrice = some 20 ∧
      (Routine.cycle exampleLib "" partialEnv laterState).geth.SugGasPrice = none := by
  refine ⟨rfl, rfl, rfl, rfl⟩

/-- C7, amended: in a cycle whose block query succeeds, each of the four
fields takes the value its own query returned, whether or not that query
reported an error and whatever the other queries did. -/
theorem Routine_bestEffort (lib : Library) (watchingAddresses : String) (env : CycleEnv)
    (st : RoutineState) (blk : Block) (hb : env.BlockByNumber = .ok blk) :
    (Routine.cycle lib watchingAddresses env st).geth.SugGasPrice = env.SuggestGasPrice.val ∧
      (Routine.cycle lib watchingAddresses env st).geth.PendingTx =
        env.PendingTransactionCount.val ∧
      (Routine.cycle lib watchingAddresses env st).geth.NetworkId = env.NetworkID.val ∧
      (Routine.cycle lib watchingAddresses env st).geth.Sync = env.SyncProgress.val := by
  simp only [Routine.cycle, hb]
  refine ⟨?_, ?_, ?_, ?_⟩ <;> split_ifs <;> rfl

/-- C7, amended, at the cycle whose gas-price query fails. -/
theorem Routine_bestEffort_witness :
    partialEnv.BlockByNumber = .ok (emptyBlock 6) ∧
      (Routine.cycle exampleLib "" partialEnv laterState).geth.SugGasPrice = none ∧
      (Routine.cycle exampleLib "" partialEnv laterState).geth.PendingTx = 3 :=
  ⟨rfl, (Routine_bestEffort exampleLib "" partialEnv laterState (emptyBlock 6) rfl).1,
    (Routine_bestEffort exampleLib "" partialEnv laterState (emptyBlock 6) rfl).2.1⟩

/-! ## Which block the aggregates belong to -/

/-- C10 as stated fails: the cycle that stores block 6, whose one transaction
carries 7 wei, creates a contract and is a token transfer, leaves the stored
aggregates at 0; and `CalculateTotals` called on block 6 (size `2.00 kB`)
while block 5 (size `1.00 kB`) is stored sets `BlockSize` to 1000, not 2000. -/
theorem Routine_keeps_aggregates :
    (Routine.cycle exampleLib "" (exampleEnv 1000 (.ok (oneTxBlock 6))) laterState).geth.CurrentBlock
        = some (oneTxBlock 6) ∧
      (Routine.cycle exampleLib "" (exampleEnv 1000 (.ok (oneTxBlock 6))) laterState).geth.TotalEth
        = 0 ∧
      ((oneTxBlock 6).Transactions.map (·.Value)).sum = 7 ∧
      (Routine.cycle exampleLib "" (exampleEnv 1000 (.ok (oneTxBlock 6)))
        laterState).geth.ContractsCreated = 0 ∧
      (oneTxBlock 6).Transactions.countP (fun t => decide (t.To = none)) = 1 ∧
      laterState.geth.CurrentBlock = some (emptyBlock 5) ∧
      (CalculateTotals exampleLib laterState.geth (oneTxBlock 6)).state.BlockSize = ⟨125, 3⟩ ∧
      Float64.mul (stringToFloat exampleLib ((Split (oneTxBlock 6).SizeString ' ').headD ""))
        (Float64.ofInt 1000) = ⟨125, 4⟩ := by
  refine ⟨rfl, rfl, by decide, rfl, by decide, rfl, by decide, by decide⟩

/-- C10, amended: a cycle of `Routine` leaves the five stored aggregates as
they were; they are recomputed by each metrics request: after `MetricsHttp`
in a state whose stored block is `b`, the stored block is still `b`, the four
transaction aggregates are those of the transactions of `b`, and `BlockSize`
is derived from the size of `b`. -/
theorem MetricsHttp_aggregates (lib : Library) (watchingAddresses taskPrefix : String)
    (now : Time) (env : CycleEnv) (st : RoutineState) (g : GethInfo) (addresses : AddrMap)
    (b : Block) (h : g.CurrentBlock = some b) :
    ((Routine.cycle lib watchingAddresses env st).geth.TotalEth = st.geth.TotalEth ∧
      (Routine.cycle lib watchingAddresses env st).geth.ContractsCreated =
        st.geth.ContractsCreated ∧
      (Routine.cycle lib watchingAddresses env st).geth.TokenTransfers =
        st.geth.TokenTransfers ∧
      (Routine.cycle lib watchingAddresses env st).geth.EthTransfers = st.geth.EthTransfers ∧
      (Routine.cycle lib watchingAddresses env st).geth.BlockSize = st.geth.BlockSize) ∧
    ((MetricsHttp lib taskPrefix now g addresses).geth.CurrentBlock = some b ∧
      (MetricsHttp lib taskPrefix now g addresses).geth.TotalEth =
        (b.Transactions.map (·.Value)).sum ∧
      (MetricsHttp lib taskPrefix now g addresses).geth.ContractsCreated =
        (b.Transactions.countP (fun t => decide (t.To = none)) : Nat) ∧
      (MetricsHttp lib taskPrefix now g addresses).geth.TokenTransfers =
        (b.Transactions.countP (fun t => decide (4 ≤ t.Data.length ∧
          t.Data.take 4 = [0xa9, 0x05, 0x9c, 0xbb])) : Nat) ∧
      (MetricsHttp lib taskPrefix now g addresses).geth.EthTransfers =
        (b.Transactions.countP (fun t => decide (0 < t.Value)) : Nat) ∧
      (MetricsHttp lib taskPrefix now g addresses).geth.BlockSize =
        Float64.mul (stringToFloat lib ((Split b.SizeString ' ').headD ""))
          (Float64.ofInt 1000)) := by
  constructor
  · cases hb : env.BlockByNumber with
    | err blk => simp [Routine.cycle, hb]
    | ok blk =>
      simp only [Routine.cycle, hb]
      refine ⟨?_, ?_, ?_, ?_, ?_⟩ <;> split_ifs <;> rfl
  · rw [MetricsHttp_geth lib taskPrefix now g addresses b h]
    refine ⟨?_, CalculateTotals_sum lib g b, CalculateTotals_countCreated lib g b,
      CalculateTotals_countToken lib g b, CalculateTotals_countEth lib g b,
      CalculateTotals_BlockSize lib g b b h⟩
    rw [(CalculateTotals_state lib g b).2.2.2.2, h]

/-- C10, amended, at the state in which block 6 was just stored. -/
theorem MetricsHttp_aggregates_witness :
    (Routine.cycle exampleLib "" (exampleEnv 1000 (.ok (oneTxBlock 6))) laterState).geth.CurrentBlock
        = some (oneTxBlock 6) ∧
      (MetricsHttp exampleLib "geth-node" 2000
        (Routine.cycle exampleLib "" (exampleEnv 1000 (.ok (oneTxBlock 6))) laterState).geth
        []).geth.TotalEth = ((oneTxBlock 6).Transactions.map (·.Value)).sum :=
  ⟨rfl, (MetricsHttp_aggregates exampleLib "" "geth-node" 2000
    (exampleEnv 1000 (.ok (oneTxBlock 6))) laterState
    (Routine.cycle exampleLib "" (exampleEnv 1000 (.ok (oneTxBlock 6))) laterState).geth
    [] (oneTxBlock 6) rfl).2.2.1⟩

end GethExporter
